import Mathlib

/-!
Verification of the `macro_analysis` repository (a CSV-driven average-GDP
report generator) against its natural-language specification.

The Python source (`src/macro_analysis.py`) is shallowly embedded below:

* a parsed CSV file is a list of records, each record a list of string
  cells (the output of Python's `csv.reader`; the character-level CSV
  syntax and `csv.Error` are outside the model);
* a `Row` is the dictionary built by `csv.DictReader` from one record:
  an insertion-ordered association list from keys (`some name` for a
  header column, `none` for the `restkey` catch-all) to cell values;
* a cell value (`Value`) is a string, or Python `None` (the `restval`
  padding for short records), or a list of strings (the `restkey`
  overflow for long records);
* Python `float` values are modeled as exact rationals (`ℚ`); `float()`
  parsing is modeled for finite decimal literals (underscores, `inf`
  and `nan` are outside the model);
* exceptions are modeled with `Except`, carrying the exact message
  strings the source raises.
-/

namespace MacroAnalysis

/-- A Python value that can appear in a `csv.DictReader` row dictionary:
a string cell, `None` (used as `restval` padding for short records), or
the list of overflow cells stored under the `restkey` key. -/
inductive Value where
  | str (s : String)
  | null
  | strList (l : List String)
deriving DecidableEq

/-- `str()` of a `Value`, as Python renders it inside an f-string. -/
def cellStr : Value → String
  | .str s => s
  | .null => "None"
  | .strList l =>
      "[" ++ String.intercalate ", " (l.map (fun s => "\x27" ++ s ++ "\x27")) ++ "]"

/-- One `csv.DictReader` row: an insertion-ordered dict from keys to values.
A key `some name` is a header column; the key `none` is `restkey`. -/
def Row : Type := List (Option String × Value)

instance : DecidableEq Row := by unfold Row; infer_instance

instance : Membership (Option String × Value) Row := by unfold Row; infer_instance

/-- Python `dict` assignment `d[k] = v`: overwrite in place if the key is
present (insertion order preserved), else append at the end. -/
def dictInsert : Row → Option String → Value → Row
  | [], k, v => [(k, v)]
  | (k0, v0) :: rest, k, v =>
      if k0 = k then (k, v) :: rest else (k0, v0) :: dictInsert rest k v

/-- Python `row[k]` / `row.get(k)` for a string key `k`. -/
def rowGet : Row → String → Option Value
  | [], _ => none
  | (k0, v0) :: rest, k => if k0 = some k then some v0 else rowGet rest k

/-- Python `k in row` for a string key. -/
def hasKey (r : Row) (k : String) : Bool := (rowGet r k).isSome

/-- The value of the `country` column of a row (the row is only consulted
after `generate` has checked the key is present, so the default is inert). -/
def rowCountry (r : Row) : Value := (rowGet r "country").getD .null

/-- The value of the `gdp` column of a row. -/
def rowGdp (r : Row) : Value := (rowGet r "gdp").getD .null

/-- `all(v == '' for v in row.values())` from `read_csv_file` line 108. -/
def rowAllEmpty (r : Row) : Bool :=
  r.all (fun kv => decide (kv.2 = Value.str ""))

/-- The dictionary `csv.DictReader` builds from one non-blank record:
`dict(zip(fieldnames, row))`, then missing trailing columns are bound to
`restval = None`, and overflow cells are stored under `restkey = None`. -/
def makeRow (fns cells : List String) : Row :=
  let base := (fns.zip cells).foldl
    (fun d kv => dictInsert d (some kv.1) (.str kv.2)) []
  if cells.length < fns.length then
    (fns.drop cells.length).foldl (fun d k => dictInsert d (some k) .null) base
  else if fns.length < cells.length then
    dictInsert base none (.strList (cells.drop fns.length))
  else base

/-- Digits-to-number accumulator for the decimal parser. -/
def digitsToNat (ds : List Char) : ℕ :=
  ds.foldl (fun n c => 10 * n + (c.toNat - 48)) 0

/-- Core of the `float()` model on an (already sign-stripped) character
list: `digits [. digits] [e|E [sign] digits]`, where at least one
mantissa digit must be present. -/
def pyFloatCore (cs : List Char) : Option ℚ :=
  let intPart := cs.takeWhile Char.isDigit
  let rest1 := cs.dropWhile Char.isDigit
  let hasDot : Bool := match rest1 with | '.' :: _ => true | _ => false
  let afterDot := match rest1 with | '.' :: r => r | r => r
  let fracPart := if hasDot then afterDot.takeWhile Char.isDigit else []
  let rest2 := if hasDot then afterDot.dropWhile Char.isDigit else rest1
  if intPart.isEmpty && fracPart.isEmpty then none
  else
    let mant : ℚ :=
      (digitsToNat intPart : ℚ) + (digitsToNat fracPart : ℚ) / ((10 : ℚ) ^ fracPart.length)
    match rest2 with
    | [] => some mant
    | c :: r =>
      if c = 'e' ∨ c = 'E' then
        let se : ℤ × List Char := match r with
          | '+' :: rr => (1, rr)
          | '-' :: rr => (-1, rr)
          | rr => (1, rr)
        if se.2.isEmpty || !(se.2.all Char.isDigit) then none
        else some (mant * (10 : ℚ) ^ (se.1 * (digitsToNat se.2 : ℤ)))
      else none

/-- An ASCII whitespace character, as `float()` strips it. -/
def isSpaceChar (c : Char) : Bool :=
  c = ' ' || c = '\t' || c = '\n' || c = '\r' || c = '\x0b' || c = '\x0c'

/-- Strip leading and trailing whitespace from a character list. -/
def trimChars (cs : List Char) : List Char :=
  ((cs.dropWhile isSpaceChar).reverse.dropWhile isSpaceChar).reverse

/-- Python `float(s)` on a string, modeled for finite decimal literals:
surrounding whitespace is stripped, one optional sign is consumed, and
the rest must be a decimal literal with optional fraction and exponent.
(`inf`, `nan`, hexadecimal and digit underscores are outside the model.) -/
def pyFloat (s : String) : Option ℚ :=
  match trimChars s.toList with
  | [] => none
  | '+' :: rest => pyFloatCore rest
  | '-' :: rest => (pyFloatCore rest).map (fun q => -q)
  | cs => pyFloatCore cs

/-- `float(row['gdp'])` from `generate` line 69: a string cell is parsed
(`ValueError` on failure, modeled as `none`), while `None` or a list
raises `TypeError` (also `none`) — both are caught by the same handler. -/
def parseGDP : Value → Option ℚ
  | .str s => pyFloat s
  | _ => none

/-- The `ValueError` message of `generate` line 66. -/
def schemaMsg : String := "CSV must contain \x27country\x27 and \x27gdp\x27 columns"

/-- The `ValueError` message of `generate` line 72 for a bad `gdp` cell. -/
def invalidMsg (v : Value) : String := "Invalid GDP value: " ++ cellStr v

/-- `country_gdp[row['country']].append(gdp)` on a `defaultdict(list)`:
append to the entry if the key exists, else create it at the end
(Python dicts preserve insertion order). -/
def groupAdd (groups : List (Value × List ℚ)) (c : Value) (g : ℚ) :
    List (Value × List ℚ) :=
  match groups with
  | [] => [(c, [g])]
  | (c0, gs) :: rest =>
      if c0 = c then (c0, gs ++ [g]) :: rest else (c0, gs) :: groupAdd rest c g

/-- The values stored under a key of the accumulator dict (empty list if
the key is absent, matching `defaultdict(list)` reads). -/
def groupVals : List (Value × List ℚ) → Value → List ℚ
  | [], _ => []
  | (c0, gs) :: rest, c => if c0 = c then gs else groupVals rest c

/-- The keys of the accumulator dict in insertion order. -/
def groupKeys (groups : List (Value × List ℚ)) : List Value :=
  groups.map Prod.fst

/-- The validation/accumulation loop of `generate` (lines 64–72): for each
row require the `country` and `gdp` keys, parse the `gdp` cell, and append
it to the per-country list; the first offending row raises. -/
def buildGroups : List Row → List (Value × List ℚ) →
    Except String (List (Value × List ℚ))
  | [], acc => .ok acc
  | r :: rs, acc =>
    if hasKey r "country" && hasKey r "gdp" then
      match parseGDP (rowGdp r) with
      | some g => buildGroups rs (groupAdd acc (rowCountry r) g)
      | none => .error (invalidMsg (rowGdp r))
    else .error schemaMsg

/-- One step of Python's stable sort, descending on the second component:
insert `p` before the first element whose key is `≤ p.2` (so elements
with an equal key that were already present stay in front). -/
def insertDesc (p : Value × ℚ) : List (Value × ℚ) → List (Value × ℚ)
  | [] => [p]
  | q :: qs => if q.2 ≤ p.2 then p :: q :: qs else q :: insertDesc p qs

/-- `averages.sort(key=lambda x: x[1], reverse=True)` (line 81): Python's
sort is stable, and `reverse=True` keeps stability while ordering by the
key descending; any stable sort for the same preorder yields the same
list, so a stable insertion sort models it exactly. -/
def sortDesc : List (Value × ℚ) → List (Value × ℚ)
  | [] => []
  | p :: ps => insertDesc p (sortDesc ps)

/-- `AverageGDPReporter.generate` (lines 60–83): validate and group the
rows, average each country's values, and sort by average descending. -/
def generate (data : List Row) : Except String (List (Value × ℚ)) :=
  match buildGroups data [] with
  | .error m => .error m
  | .ok groups =>
      .ok (sortDesc (groups.map (fun p => (p.1, p.2.sum / (p.2.length : ℚ)))))

/-- Rows with the given country value contribute their parsed `gdp`
readings, in dataset order. -/
def countryGdps (data : List Row) (c : Value) : List ℚ :=
  data.filterMap (fun r => if rowCountry r = c then parseGDP (rowGdp r) else none)

/-- A row that passes `generate`'s validation: both keys present and a
parseable `gdp` cell. -/
def rowOk (r : Row) : Bool :=
  (hasKey r "country" && hasKey r "gdp") && (parseGDP (rowGdp r)).isSome

/-- The distinct country values of the rows, in first-appearance order
(`seen` accumulates the values already emitted). -/
def newCountries (seen : List Value) : List Row → List Value
  | [] => []
  | r :: rs =>
    if rowCountry r ∈ seen then newCountries seen rs
    else rowCountry r :: newCountries (seen ++ [rowCountry r]) rs

/-- The errors `read_csv_file` can raise, distinguished the way Python
distinguishes them (`FileNotFoundError` by type, the two `ValueError`s by
their disjoint message texts, rendered by `LoadError.message`). -/
inductive LoadError where
  | fileNotFound (path : String)
  | noHeaders (path : String)
  | emptyDataset (path : String)
deriving DecidableEq

/-- `str(e)` of each exception, with the exact source message texts. -/
def LoadError.message : LoadError → String
  | .fileNotFound p => "[Errno 2] No such file or directory: \x27" ++ p ++ "\x27"
  | .noHeaders p => "CSV file \x27" ++ p ++ "\x27 has no headers"
  | .emptyDataset p => "No data found in file \x27" ++ p ++ "\x27"

/-- The readable world: a map from path to the parsed record list of the
file at that path (`none` when `open` raises `FileNotFoundError`). -/
def FileSystem : Type := String → Option (List (List String))

/-- The rows `read_csv_file` keeps: `csv.DictReader` itself skips records
that are the empty list (blank lines), and the loop at lines 106–110 then
skips any row whose dict values are all the empty string. -/
def keptRows (fns : List String) (rawRows : List (List String)) : List Row :=
  ((rawRows.filter (fun rec => !rec.isEmpty)).map (makeRow fns)).filter
    (fun r => !rowAllEmpty r)

/-- `read_csv_file` (lines 95–117): open the file, take the first record
as `fieldnames` (failing when there is none or it is empty), build and
filter the data rows, and fail when no data rows remain. -/
def read_csv_file (filepath : String) (fs : FileSystem) :
    Except LoadError (List Row) :=
  match fs filepath with
  | none => .error (.fileNotFound filepath)
  | some records =>
    match records with
    | [] => .error (.noHeaders filepath)
    | fns :: rest =>
      if fns.isEmpty then .error (.noHeaders filepath)
      else
        let data := keptRows fns rest
        if data.isEmpty then .error (.emptyDataset filepath)
        else .ok data

/-- The failure message `read_csv_files` records for one failing path:
`FileNotFoundError` gets its own wording, any other exception `e` is
reported as `Error reading {path}: {e}`. -/
def loadErrorEntry (p : String) (e : LoadError) : String :=
  match e with
  | .fileNotFound _ => "File not found: " ++ p
  | e => "Error reading " ++ p ++ ": " ++ e.message

/-- `read_csv_files` (lines 120–136): try every path in order, extending
the dataset on success and recording a message on failure; raise the
joined messages if any path failed, else return the concatenation. -/
def read_csv_files (paths : List String) (fs : FileSystem) :
    Except String (List Row) :=
  let result := paths.foldl
    (fun acc p =>
      match read_csv_file p fs with
      | .ok rows => (acc.1 ++ rows, acc.2)
      | .error e => (acc.1, acc.2 ++ [loadErrorEntry p e]))
    (([] : List Row), ([] : List String))
  if result.2.isEmpty then .ok result.1
  else .error (String.intercalate "\n" result.2)

/-- The message `read_csv_files` would record for a path, if any. -/
def fileErrMsg (fs : FileSystem) (p : String) : Option String :=
  match read_csv_file p fs with
  | .ok _ => none
  | .error e => some (loadErrorEntry p e)

/-- The rows a path contributes to the combined dataset. -/
def fileRows (fs : FileSystem) (p : String) : List Row :=
  match read_csv_file p fs with
  | .ok rows => rows
  | .error _ => []

/-- The report names registered in `ReporterFactory._reporters` once the
module has loaded (exactly one registration exists in the source). -/
def registeredReports : List String := ["average-gdp"]

/-- `ReporterFactory.create` (lines 45–51): an unknown name raises
`ValueError` listing the registered names. -/
def ReporterFactory_create (name : String) : Except String Unit :=
  if registeredReports.contains name then .ok ()
  else .error ("Unknown report \x27" ++ name ++ "\x27. Available reports: average-gdp")

/-- The parsed command line. -/
structure Args where
  files : List String
  report : String

/-- `argparse`'s message for a value outside `choices`. -/
def invalidChoiceMsg (v : String) : String :=
  "argument --report: invalid choice: \x27" ++ v ++ "\x27 (choose from \x27average-gdp\x27)"

/-- Does a token look like an option flag (does it start with `--`)? -/
def isFlag (s : String) : Bool :=
  match s.toList with
  | '-' :: '-' :: _ => true
  | _ => false

/-- Modelled from the spec and the `argparse` configuration of
`parse_arguments` (lines 141–164): `--files` collects one or more
following non-flag tokens, `--report` takes one value that must be a
registered report name (rejected with the valid-choice list otherwise),
both options are required, and anything else is a usage error.  Any
`.error` result corresponds to `argparse` exiting with code 2 before the
program touches a file.  Messages other than the invalid-choice one are
abbreviations of `argparse`'s texts. -/
def parseArgsAux : List String → Bool → List String → Option String →
    Except String Args
  | [], _, files, report? =>
      if files.isEmpty then .error "the following arguments are required: --files"
      else
        match report? with
        | some r => .ok ⟨files, r⟩
        | none => .error "the following arguments are required: --report"
  | tok :: rest, inFiles, files, report? =>
      if tok = "--files" then parseArgsAux rest true [] report?
      else if tok = "--report" then
        match rest with
        | [] => .error "argument --report: expected one argument"
        | v :: rest2 =>
            if registeredReports.contains v then parseArgsAux rest2 false files (some v)
            else .error (invalidChoiceMsg v)
      else if isFlag tok then .error ("unrecognized arguments: " ++ tok)
      else if inFiles then parseArgsAux rest true (files ++ [tok]) report?
      else .error ("unrecognized arguments: " ++ tok)

/-- `parse_arguments`, applied to the tokens after the program name. -/
def parse_arguments (argv : List String) : Except String Args :=
  parseArgsAux argv false [] none

/-- A digit character. -/
def digitChar (d : ℕ) : Char := Char.ofNat (48 + d)

/-- Decimal digit rendering of a natural number (fuel-based). -/
def natDigitsAux : ℕ → ℕ → List Char
  | 0, _ => []
  | fuel + 1, n =>
      if n < 10 then [digitChar n]
      else natDigitsAux fuel (n / 10) ++ [digitChar (n % 10)]

/-- The decimal digits of `n`, most significant first. -/
def natDigits (n : ℕ) : List Char := natDigitsAux (n + 1) n

/-- Round to the nearest integer, ties to even — the rounding Python's
fixed-point float formatting uses. -/
def roundHalfEven (q : ℚ) : ℤ :=
  let f := ⌊q⌋
  let r := q - f
  if r < 1 / 2 then f
  else if 1 / 2 < r then f + 1
  else if f % 2 = 0 then f else f + 1

/-- Python `f"{x:.2f}"` on the exact-rational model of `x`: round
`x * 100` to an integer (ties to even) and print it with two digits after
the decimal point.  (The sign Python keeps on a negative zero is outside
the model.) -/
def formatFloat (q : ℚ) : String :=
  let n := roundHalfEven (q * 100)
  let m := n.natAbs
  ⟨(if n < 0 then ['-'] else []) ++ natDigits (m / 100) ++
    ['.', digitChar (m % 100 / 10), digitChar (m % 100 % 10)]⟩

/-- The table handed to `tabulate`: the header list and the row cells.
(The grid text layout `tabulate` renders is external library behavior
and outside the model.) -/
structure Table where
  headers : List String
  rows : List (List String)
deriving DecidableEq

/-- `AverageGDPReporter.format` (lines 85–90): a two-column table with the
fixed header and each average rendered via `f"{avg_gdp:.2f}"`. -/
def formatReport (report_data : List (Value × ℚ)) : Table :=
  { headers := ["Country", "Average GDP (billions USD)"]
    rows := report_data.map (fun p => [cellStr p.1, formatFloat p.2]) }

/-- The exceptions `main`'s `try` body can raise, as Python's handler
distinguishes them. -/
inductive AppException where
  | fileNotFoundExc (msg : String)
  | valueErrorExc (msg : String)
  | keyboardInterrupt
  | otherExc (msg : String)
deriving DecidableEq

/-- The exit code `main`'s `except` clauses (lines 188–199) assign to an
exception escaping the body: handled application failures exit 1, a user
interrupt exits 130, unexpected failures exit 1. -/
def handlerExitCode : AppException → ℕ
  | .fileNotFoundExc _ => 1
  | .valueErrorExc _ => 1
  | .keyboardInterrupt => 130
  | .otherExc _ => 1

/-- How one (uninterrupted) run of `main`'s `try` body ends: a direct
`sys.exit`/`argparse` exit, an exception for the handler, or the printed
report.  A `KeyboardInterrupt` is an asynchronous event and can not be
produced by this deterministic model; its handling is captured by
`handlerExitCode`. -/
inductive BodyResult where
  | exited (code : ℕ)
  | raised (e : AppException)
  | completed (table : Table)
deriving DecidableEq

/-- The `try` body of `main` (lines 169–186): parse arguments (an
`argparse` failure is `SystemExit(2)`, which no `except` clause catches),
load the files, create the reporter, generate and format the report. -/
def body (argv : List String) (fs : FileSystem) : BodyResult :=
  match parse_arguments argv with
  | .error _ => .exited 2
  | .ok args =>
    match read_csv_files args.files fs with
    | .error m => .raised (.valueErrorExc m)
    | .ok data =>
      if data.isEmpty then .exited 1
      else
        match ReporterFactory_create args.report with
        | .error m => .raised (.valueErrorExc m)
        | .ok _ =>
          match generate data with
          | .error m => .raised (.valueErrorExc m)
          | .ok res => .completed (formatReport res)

/-- The process exit code of one uninterrupted run: 0 when the body
completes, the direct exit code otherwise, or what the handler assigns to
an escaping exception. -/
def main (argv : List String) (fs : FileSystem) : ℕ :=
  match body argv fs with
  | .exited c => c
  | .raised e => handlerExitCode e
  | .completed _ => 0

/-- Decidable equality for `Except`, used to evaluate the pipeline on the
concrete inputs below. -/
def exceptDecEq {e a : Type} [DecidableEq e] [DecidableEq a] :
    DecidableEq (Except e a) := fun x y =>
  match x, y with
  | .ok u, .ok v =>
      if h : u = v then .isTrue (by rw [h])
      else .isFalse (fun hh => h (Except.ok.inj hh))
  | .error u, .error v =>
      if h : u = v then .isTrue (by rw [h])
      else .isFalse (fun hh => h (Except.error.inj hh))
  | .ok u, .error v => .isFalse (fun hh => Except.noConfusion hh)
  | .error u, .ok v => .isFalse (fun hh => Except.noConfusion hh)

instance {e a : Type} [DecidableEq e] [DecidableEq a] :
    DecidableEq (Except e a) := exceptDecEq

/-! Concrete inputs used to instantiate the theorems below. -/

/-- A dataset row with the given `country` and `gdp` string cells. -/
def exRow (c g : String) : Row :=
  [(some "country", Value.str c), (some "gdp", Value.str g)]

/-- A short record under headers `gdp,country`: its `country` cell is the
`None` padding. -/
def exDataNullCountry : List Row := [makeRow ["gdp", "country"] ["5"]]

/-- A one-row dataset for the grouping witness. -/
def exDataUSA : List Row := [exRow "USA" "4"]

/-- A dataset with two tied averages (`A` and `B`) and a smaller one. -/
def exDataTie : List Row := [exRow "A" "2", exRow "B" "2", exRow "C" "1"]

/-- The report `generate` produces for `exDataTie`. -/
def exResTie : List (Value × ℚ) :=
  [(Value.str "A", 2), (Value.str "B", 2), (Value.str "C", 1)]

/-- A world holding one header-less file whose only line is a data row. -/
def exFsDataRowOnly : FileSystem :=
  fun p => if p = "data.csv" then some [["USA", "123"]] else none

/-- A world holding one completely empty file. -/
def exFsEmptyFile : FileSystem :=
  fun p => if p = "empty.csv" then some [] else none

/-- A world holding one well-formed file; every other path is missing. -/
def exFsOneGood : FileSystem :=
  fun p => if p = "a.csv" then some [["country", "gdp"], ["USA", "5"]] else none

/-- A dataset whose first row has an unparseable `gdp` and whose second
row lacks both required keys. -/
def exDataBadThenMissing : List Row := [exRow "A" "x", ([] : Row)]

/-- A dataset whose rows have the keys but one `gdp` cell is not numeric. -/
def exDataNotANumber : List Row := [exRow "USA" "not_a_number"]

/-- A world holding one file with an all-empty-cells row between the
header and a real data row. -/
def exFsBlankish : FileSystem :=
  fun p => if p = "d.csv" then some [["country", "gdp"], ["", ""], ["USA", "5"]] else none

/-- A world with no files at all. -/
def exFsNone : FileSystem := fun _ => none

/-- A world holding one loadable single-row file. -/
def exFsGoodRun : FileSystem :=
  fun p => if p = "d.csv" then some [["country", "gdp"], ["USA", "5"]] else none

/-- A one-row dataset for the formatting witness. -/
def exDataFmt : List Row := [exRow "A" "3"]

/-- A world holding one file with a blank line (an empty record) between
the header and a data row. -/
def exFsBlankLine : FileSystem :=
  fun p => if p = "f.csv" then some [["country", "gdp"], [], ["USA", "5"]] else none

/-! ### Dictionary and row lemmas -/

theorem rowGet_dictInsert (d : Row) (k : Option String) (v : Value) (q : String) :
    rowGet (dictInsert d k v) q = if k = some q then some v else rowGet d q := by
  induction d with
  | nil => simp [dictInsert, rowGet]
  | cons hd tl ih =>
    obtain ⟨k0, v0⟩ := hd
    by_cases h1 : k0 = k
    · subst h1
      by_cases h2 : k0 = some q <;> simp [dictInsert, rowGet, h2]
    · by_cases h2 : k0 = some q
      · subst h2
        have : k ≠ some q := fun h => h1 h.symm
        simp [dictInsert, rowGet, h1, this]
      · simp [dictInsert, rowGet, h1, h2, ih]

theorem rowGet_mem {r : Row} {k : String} {v : Value}
    (h : rowGet r k = some v) : (some k, v) ∈ r := by
  induction r with
  | nil => simp [rowGet] at h
  | cons hd tl ih =>
    obtain ⟨k0, v0⟩ := hd
    by_cases h2 : k0 = some k
    · subst h2
      simp [rowGet] at h
      subst h
      exact List.mem_cons_self _ _
    · simp [rowGet, h2] at h
      exact List.mem_cons_of_mem _ (ih h)

theorem rowAllEmpty_iff (r : Row) :
    rowAllEmpty r = true ↔ ∀ v ∈ r.map Prod.snd, v = Value.str "" := by
  unfold rowAllEmpty
  rw [List.all_eq_true]
  constructor
  · intro h v hv
    obtain ⟨kv, hkv, rfl⟩ := List.mem_map.mp hv
    simpa using h kv hkv
  · intro h kv hkv
    simpa using h kv.2 (List.mem_map.mpr ⟨kv, hkv, rfl⟩)

theorem rowGet_padNull_of_not_mem (ks : List String) (d : Row) (k : String)
    (hk : k ∉ ks) :
    rowGet (ks.foldl (fun d x => dictInsert d (some x) Value.null) d) k =
      rowGet d k := by
  induction ks generalizing d with
  | nil => rfl
  | cons k0 ks ih =>
    have hk0 : k ≠ k0 := fun h => hk (h ▸ List.mem_cons_self _ _)
    have hks : k ∉ ks := fun h => hk (List.mem_cons_of_mem _ h)
    rw [List.foldl_cons, ih _ hks, rowGet_dictInsert]
    exact if_neg (by simpa using Ne.symm hk0)

theorem rowGet_padNull_of_mem (ks : List String) (d : Row) (k : String)
    (hk : k ∈ ks) :
    rowGet (ks.foldl (fun d x => dictInsert d (some x) Value.null) d) k =
      some Value.null := by
  induction ks generalizing d with
  | nil => cases hk
  | cons k0 ks ih =>
    by_cases hks : k ∈ ks
    · rw [List.foldl_cons, ih _ hks]
    · have hk0 : k = k0 := by
        rcases List.mem_cons.mp hk with h | h
        · exact h
        · exact absurd h hks
      subst hk0
      rw [List.foldl_cons, rowGet_padNull_of_not_mem _ _ _ hks, rowGet_dictInsert]
      simp

/-! ### Grouping lemmas -/

theorem groupVals_groupAdd_self (groups : List (Value × List ℚ)) (c : Value)
    (g : ℚ) :
    groupVals (groupAdd groups c g) c = groupVals groups c ++ [g] := by
  induction groups with
  | nil => simp [groupAdd, groupVals]
  | cons hd tl ih =>
    obtain ⟨c0, gs⟩ := hd
    by_cases h : c0 = c
    · subst h; simp [groupAdd, groupVals]
    · simp [groupAdd, groupVals, h, ih]

theorem groupVals_groupAdd_other (groups : List (Value × List ℚ)) (c : Value)
    (g : ℚ) (x : Value) (hx : x ≠ c) :
    groupVals (groupAdd groups c g) x = groupVals groups x := by
  induction groups with
  | nil => simp [groupAdd, groupVals, Ne.symm hx]
  | cons hd tl ih =>
    obtain ⟨c0, gs⟩ := hd
    by_cases h : c0 = c
    · subst h; simp [groupAdd, groupVals, Ne.symm hx]
    · simp [groupAdd, groupVals, h, ih]

theorem groupAdd_keys (groups : List (Value × List ℚ)) (c : Value) (g : ℚ) :
    groupKeys (groupAdd groups c g) =
      if c ∈ groupKeys groups then groupKeys groups else groupKeys groups ++ [c] := by
  induction groups with
  | nil => simp [groupAdd, groupKeys]
  | cons hd tl ih =>
    obtain ⟨c0, gs⟩ := hd
    by_cases h1 : c0 = c
    · subst h1; simp [groupAdd, groupKeys]
    · have h1s : ¬(c = c0) := fun h => h1 h.symm
      have e1 : groupAdd ((c0, gs) :: tl) c g = (c0, gs) :: groupAdd tl c g := by
        simp [groupAdd, h1]
      have e2 : groupKeys ((c0, gs) :: groupAdd tl c g) =
          c0 :: groupKeys (groupAdd tl c g) := rfl
      have e3 : groupKeys ((c0, gs) :: tl) = c0 :: groupKeys tl := rfl
      rw [e1, e2, e3, ih]
      by_cases h2 : c ∈ groupKeys tl
      · simp [h2, List.mem_cons, h1s]
      · simp [h2, List.mem_cons, h1s]

theorem buildGroups_cons_ok {r : Row} {rs : List Row}
    {acc groups : List (Value × List ℚ)}
    (h : buildGroups (r :: rs) acc = .ok groups) :
    ∃ g, (hasKey r "country" && hasKey r "gdp") = true ∧
      parseGDP (rowGdp r) = some g ∧
      buildGroups rs (groupAdd acc (rowCountry r) g) = .ok groups := by
  by_cases hc : (hasKey r "country" && hasKey r "gdp") = true
  · cases hp : parseGDP (rowGdp r) with
    | none => simp [buildGroups, hc, hp] at h
    | some g =>
      refine ⟨g, hc, rfl, ?_⟩
      simpa [buildGroups, hc, hp] using h
  · simp [buildGroups, hc] at h

theorem buildGroups_ok_rowOk {rows : List Row}
    {acc groups : List (Value × List ℚ)}
    (h : buildGroups rows acc = .ok groups) :
    ∀ r ∈ rows, rowOk r = true := by
  induction rows generalizing acc with
  | nil => intro r hr; cases hr
  | cons r rs ih =>
    obtain ⟨g, hc, hp, h2⟩ := buildGroups_cons_ok h
    intro q hq
    rcases List.mem_cons.mp hq with rfl | hq
    · simp [rowOk, hc, hp]
    · exact ih h2 q hq

theorem buildGroups_ok_vals {rows : List Row}
    {acc groups : List (Value × List ℚ)}
    (h : buildGroups rows acc = .ok groups) (c : Value) :
    groupVals groups c = groupVals acc c ++ countryGdps rows c := by
  induction rows generalizing acc with
  | nil =>
    simp only [buildGroups] at h
    cases h
    simp [countryGdps]
  | cons r rs ih =>
    obtain ⟨g, hc, hp, h2⟩ := buildGroups_cons_ok h
    rw [ih h2]
    by_cases hx : c = rowCountry r
    · subst hx
      rw [groupVals_groupAdd_self]
      simp [countryGdps, List.filterMap_cons, hp]
    · have hx2 : ¬(rowCountry r = c) := fun h => hx h.symm
      rw [groupVals_groupAdd_other _ _ _ _ hx]
      simp [countryGdps, List.filterMap_cons, hx2]

theorem buildGroups_ok_keys {rows : List Row}
    {acc groups : List (Value × List ℚ)}
    (h : buildGroups rows acc = .ok groups) :
    groupKeys groups = groupKeys acc ++ newCountries (groupKeys acc) rows := by
  induction rows generalizing acc with
  | nil =>
    simp only [buildGroups] at h
    cases h
    simp [newCountries]
  | cons r rs ih =>
    obtain ⟨g, hc, hp, h2⟩ := buildGroups_cons_ok h
    rw [ih h2, groupAdd_keys]
    by_cases hmem : rowCountry r ∈ groupKeys acc
    · simp [newCountries, hmem]
    · simp [newCountries, hmem]

theorem buildGroups_append (pre rest : List Row) (acc : List (Value × List ℚ))
    (hpre : ∀ q ∈ pre, rowOk q = true) :
    ∃ acc2, buildGroups (pre ++ rest) acc = buildGroups rest acc2 := by
  induction pre generalizing acc with
  | nil => exact ⟨acc, rfl⟩
  | cons q qs ih =>
    have hq : rowOk q = true := hpre q (List.mem_cons_self _ _)
    have hqs : ∀ x ∈ qs, rowOk x = true :=
      fun x hx => hpre x (List.mem_cons_of_mem _ hx)
    rw [rowOk, Bool.and_eq_true] at hq
    obtain ⟨hc, hps⟩ := hq
    obtain ⟨g, hp⟩ := Option.isSome_iff_exists.mp hps
    rw [List.cons_append]
    have step : buildGroups (q :: (qs ++ rest)) acc =
        buildGroups (qs ++ rest) (groupAdd acc (rowCountry q) g) := by
      simp only [buildGroups, hc, if_true, hp]
    rw [step]
    exact ih _ hqs

/-! ### First-appearance order lemmas -/

theorem mem_newCountries (rows : List Row) (seen : List Value) (c : Value) :
    c ∈ newCountries seen rows ↔
      c ∉ seen ∧ ∃ r ∈ rows, rowCountry r = c := by
  induction rows generalizing seen with
  | nil => simp [newCountries]
  | cons r rs ih =>
    by_cases hm : rowCountry r ∈ seen
    · rw [newCountries, if_pos hm, ih]
      constructor
      · rintro ⟨hns, x, hx, rfl⟩
        exact ⟨hns, x, List.mem_cons_of_mem _ hx, rfl⟩
      · rintro ⟨hns, x, hx, rfl⟩
        rcases List.mem_cons.mp hx with rfl | hx
        · exact absurd hm hns
        · exact ⟨hns, x, hx, rfl⟩
    · rw [newCountries, if_neg hm]
      constructor
      · intro hc
        rcases List.mem_cons.mp hc with rfl | hc
        · exact ⟨hm, r, List.mem_cons_self _ _, rfl⟩
        · obtain ⟨hns, x, hx, rfl⟩ := (ih _).mp hc
          have : rowCountry x ∉ seen := fun hh =>
            hns (List.mem_append_left _ hh)
          exact ⟨this, x, List.mem_cons_of_mem _ hx, rfl⟩
      · rintro ⟨hns, x, hx, rfl⟩
        by_cases hcr : rowCountry x = rowCountry r
        · exact hcr ▸ List.mem_cons_self _ _
        · rcases List.mem_cons.mp hx with rfl | hx
          · exact List.mem_cons_self _ _
          · refine List.mem_cons_of_mem _ ((ih _).mpr ⟨?_, x, hx, rfl⟩)
            intro hh
            rcases List.mem_append.mp hh with hh | hh
            · exact hns hh
            · exact hcr (List.mem_singleton.mp hh)

theorem newCountries_nodup (rows : List Row) (seen : List Value) :
    (newCountries seen rows).Nodup := by
  induction rows generalizing seen with
  | nil => simp [newCountries]
  | cons r rs ih =>
    by_cases hm : rowCountry r ∈ seen
    · rw [newCountries, if_pos hm]; exact ih _
    · rw [newCountries, if_neg hm]
      refine List.nodup_cons.mpr ⟨?_, ih _⟩
      intro hmem
      have := ((mem_newCountries _ _ _).mp hmem).1
      exact this (List.mem_append_right _ (List.mem_singleton.mpr rfl))

theorem newCountries_findIdx_lt (rows : List Row) (seen : List Value)
    (c1 c2 : Value) (hne : c1 ≠ c2)
    (hsub : [c1, c2].Sublist (newCountries seen rows)) :
    rows.findIdx (fun r => decide (rowCountry r = c1)) <
      rows.findIdx (fun r => decide (rowCountry r = c2)) := by
  induction rows generalizing seen with
  | nil =>
    rw [newCountries] at hsub
    cases List.sublist_nil.mp hsub
  | cons r rs ih =>
    by_cases hm : rowCountry r ∈ seen
    · rw [newCountries, if_pos hm] at hsub
      have h1 : c1 ∈ newCountries seen rs := hsub.subset (by simp)
      have h2 : c2 ∈ newCountries seen rs := hsub.subset (by simp)
      have hn1 : c1 ∉ seen := ((mem_newCountries _ _ _).mp h1).1
      have hn2 : c2 ∉ seen := ((mem_newCountries _ _ _).mp h2).1
      have hr1 : ¬(rowCountry r = c1) := fun h => hn1 (h ▸ hm)
      have hr2 : ¬(rowCountry r = c2) := fun h => hn2 (h ▸ hm)
      rw [List.findIdx_cons, List.findIdx_cons]
      simp only [hr1, hr2, decide_eq_true_eq, cond_false, decide_eq_false_iff_not,
        if_neg, cond_eq_if, if_false]
      have := ih _ hsub
      omega
    · rw [newCountries, if_neg hm] at hsub
      cases hsub with
      | cons a h =>
        have h1 : c1 ∈ newCountries (seen ++ [rowCountry r]) rs := h.subset (by simp)
        have h2 : c2 ∈ newCountries (seen ++ [rowCountry r]) rs := h.subset (by simp)
        have hn1 := ((mem_newCountries _ _ _).mp h1).1
        have hn2 := ((mem_newCountries _ _ _).mp h2).1
        have hr1 : ¬(rowCountry r = c1) := fun hh =>
          hn1 (hh ▸ List.mem_append_right _ (List.mem_singleton.mpr rfl))
        have hr2 : ¬(rowCountry r = c2) := fun hh =>
          hn2 (hh ▸ List.mem_append_right _ (List.mem_singleton.mpr rfl))
        rw [List.findIdx_cons, List.findIdx_cons]
        simp only [hr1, hr2, cond_eq_if, decide_eq_true_eq, if_neg, if_false]
        have := ih _ h
        omega
      | cons₂ a h =>
        rw [List.findIdx_cons, List.findIdx_cons]
        simp only [cond_eq_if, decide_eq_true_eq, if_true]
        rw [if_neg hne]
        exact Nat.succ_pos _

theorem get_pair_sublist (l : List α) (i j : ℕ) (hi : i < l.length)
    (hj : j < l.length) (hij : i < j) :
    [l.get ⟨i, hi⟩, l.get ⟨j, hj⟩].Sublist l := by
  induction l generalizing i j with
  | nil => cases hi
  | cons a t ih =>
    cases i with
    | zero =>
      cases j with
      | zero => cases hij
      | succ j2 =>
        simp only [List.get]
        exact List.Sublist.cons₂ a
          (List.singleton_sublist.mpr (t.get_mem _ _))
    | succ i2 =>
      cases j with
      | zero => cases hij
      | succ j2 =>
        simp only [List.get]
        exact List.Sublist.cons a
          (ih i2 j2 (Nat.lt_of_succ_lt_succ hi) (Nat.lt_of_succ_lt_succ hj)
            (Nat.lt_of_succ_lt_succ hij))

/-! ### Sorting lemmas -/

theorem insertDesc_perm (p : Value × ℚ) (l : List (Value × ℚ)) :
    (insertDesc p l).Perm (p :: l) := by
  induction l with
  | nil => exact List.Perm.refl _
  | cons q qs ih =>
    by_cases h : q.2 ≤ p.2
    · rw [insertDesc, if_pos h]
    · rw [insertDesc, if_neg h]
      exact (ih.cons q).trans (List.Perm.swap p q qs)

theorem sortDesc_perm (l : List (Value × ℚ)) : (sortDesc l).Perm l := by
  induction l with
  | nil => exact List.Perm.refl _
  | cons p ps ih => exact (insertDesc_perm p (sortDesc ps)).trans (ih.cons p)

theorem insertDesc_pairwise {l : List (Value × ℚ)}
    (hl : l.Pairwise (fun a b => b.2 ≤ a.2)) (p : Value × ℚ) :
    (insertDesc p l).Pairwise (fun a b => b.2 ≤ a.2) := by
  induction l with
  | nil => simp [insertDesc]
  | cons q qs ih =>
    rcases List.pairwise_cons.mp hl with ⟨hq, hqs⟩
    by_cases h : q.2 ≤ p.2
    · rw [insertDesc, if_pos h]
      refine List.pairwise_cons.mpr ⟨?_, hl⟩
      intro x hx
      rcases List.mem_cons.mp hx with rfl | hx
      · exact h
      · exact le_trans (hq x hx) h
    · rw [insertDesc, if_neg h]
      refine List.pairwise_cons.mpr ⟨?_, ih hqs⟩
      intro x hx
      rcases List.mem_cons.mp ((insertDesc_perm p qs).subset hx) with rfl | hx
      · exact le_of_not_le h
      · exact hq x hx

theorem sortDesc_pairwise (l : List (Value × ℚ)) :
    (sortDesc l).Pairwise (fun a b => b.2 ≤ a.2) := by
  induction l with
  | nil => simp [sortDesc]
  | cons p ps ih => exact insertDesc_pairwise ih p

theorem insertDesc_filter (p : Value × ℚ) (l : List (Value × ℚ)) (a : ℚ) :
    (insertDesc p l).filter (fun q => decide (q.2 = a)) =
      if p.2 = a then p :: l.filter (fun q => decide (q.2 = a))
      else l.filter (fun q => decide (q.2 = a)) := by
  induction l with
  | nil => by_cases h : p.2 = a <;> simp [insertDesc, h]
  | cons q qs ih =>
    by_cases h : q.2 ≤ p.2
    · rw [insertDesc, if_pos h]
      by_cases hp : p.2 = a <;> simp [List.filter_cons, hp]
    · rw [insertDesc, if_neg h]
      by_cases hq : q.2 = a
      · have hlt : p.2 < q.2 := not_le.mp h
        have hp : ¬(p.2 = a) := fun hh => absurd (hq ▸ hh : p.2 = q.2)
          (ne_of_lt hlt)
        simp [List.filter_cons, hq, hp, ih]
      · simp [List.filter_cons, hq, ih]

theorem sortDesc_filter (l : List (Value × ℚ)) (a : ℚ) :
    (sortDesc l).filter (fun q => decide (q.2 = a)) =
      l.filter (fun q => decide (q.2 = a)) := by
  induction l with
  | nil => rfl
  | cons p ps ih =>
    rw [sortDesc, insertDesc_filter]
    by_cases hp : p.2 = a <;> simp [List.filter_cons, hp, ih]

/-! ### Structure of a successful `generate` run -/

theorem generate_ok_elim {data : List Row} {res : List (Value × ℚ)}
    (h : generate data = .ok res) :
    ∃ groups, buildGroups data [] = .ok groups ∧
      res = sortDesc (groups.map (fun p => (p.1, p.2.sum / (p.2.length : ℚ)))) := by
  unfold generate at h
  cases hb : buildGroups data [] with
  | error m => rw [hb] at h; cases h
  | ok groups => rw [hb] at h; exact ⟨groups, rfl, (Except.ok.inj h).symm⟩

theorem mem_groupVals {groups : List (Value × List ℚ)} {c : Value}
    {gs : List ℚ} (hm : (c, gs) ∈ groups) (hnd : (groupKeys groups).Nodup) :
    groupVals groups c = gs := by
  induction groups with
  | nil => cases hm
  | cons hd tl ih =>
    obtain ⟨c0, gs0⟩ := hd
    rcases List.mem_cons.mp hm with heq | hm2
    · obtain ⟨h1, h2⟩ := Prod.mk.inj (heq.symm)
      subst h1; subst h2
      simp [groupVals]
    · have hc0 : ¬(c0 = c) := by
        intro hh
        subst hh
        have hkey : c0 ∈ groupKeys tl :=
          List.mem_map.mpr ⟨(c0, gs), hm2, rfl⟩
        have : c0 ∉ groupKeys tl := (List.nodup_cons.mp hnd).1
        exact this hkey
      have hnd2 : (groupKeys tl).Nodup := (List.nodup_cons.mp hnd).2
      simp [groupVals, hc0, ih hm2 hnd2]

theorem read_csv_files_foldl (paths : List String) (fs : FileSystem)
    (d0 : List Row) (e0 : List String) :
    paths.foldl
      (fun acc p =>
        match read_csv_file p fs with
        | .ok rows => (acc.1 ++ rows, acc.2)
        | .error e => (acc.1, acc.2 ++ [loadErrorEntry p e]))
      (d0, e0) =
    (d0 ++ (paths.map (fileRows fs)).flatten,
      e0 ++ paths.filterMap (fileErrMsg fs)) := by
  induction paths generalizing d0 e0 with
  | nil => simp
  | cons p ps ih =>
    rw [List.foldl_cons]
    cases hr : read_csv_file p fs with
    | ok rows =>
      simp only [hr, ih]
      simp [fileRows, fileErrMsg, hr]
    | error e =>
      simp only [hr, ih]
      simp [fileRows, fileErrMsg, hr]

theorem buildGroups_invalid (rows : List Row) (acc : List (Value × List ℚ))
    (hkeys : ∀ r ∈ rows, (hasKey r "country" && hasKey r "gdp") = true)
    (hbad : ∃ r ∈ rows, parseGDP (rowGdp r) = none) :
    ∃ r ∈ rows, parseGDP (rowGdp r) = none ∧
      buildGroups rows acc = .error (invalidMsg (rowGdp r)) := by
  induction rows generalizing acc with
  | nil =>
    obtain ⟨r, hr, -⟩ := hbad
    cases hr
  | cons r rs ih =>
    have hc := hkeys r (List.mem_cons_self _ _)
    cases hp : parseGDP (rowGdp r) with
    | none =>
      refine ⟨r, List.mem_cons_self _ _, hp, ?_⟩
      simp [buildGroups, hc, hp]
    | some g =>
      have hbad2 : ∃ x ∈ rs, parseGDP (rowGdp x) = none := by
        obtain ⟨x, hx, hxp⟩ := hbad
        rcases List.mem_cons.mp hx with rfl | hx2
        · rw [hp] at hxp; cases hxp
        · exact ⟨x, hx2, hxp⟩
      obtain ⟨x, hx, hxp, hxe⟩ :=
        ih (groupAdd acc (rowCountry r) g)
          (fun y hy => hkeys y (List.mem_cons_of_mem _ hy)) hbad2
      refine ⟨x, List.mem_cons_of_mem _ hx, hxp, ?_⟩
      rw [show buildGroups (r :: rs) acc =
          buildGroups rs (groupAdd acc (rowCountry r) g)
        from by simp [buildGroups, hc, hp]]
      exact hxe

theorem stable_pairs_sublist {avgs res : List (Value × ℚ)}
    (hres : res = sortDesc avgs) {p q : Value × ℚ}
    (hsub : [p, q].Sublist res) (heq : p.2 = q.2) :
    [p.1, q.1].Sublist (avgs.map Prod.fst) := by
  have hkeep : [p, q].filter (fun x => decide (x.2 = p.2)) = [p, q] := by
    simp only [List.filter_cons, List.filter_nil, decide_eq_true_eq, if_true]
    rw [if_pos heq.symm]
  have h1 : [p, q].Sublist (res.filter (fun x => decide (x.2 = p.2))) := by
    rw [← hkeep]; exact hsub.filter _
  have h2 : res.filter (fun x => decide (x.2 = p.2)) =
      avgs.filter (fun x => decide (x.2 = p.2)) := by
    rw [hres]; exact sortDesc_filter _ _
  have h3 : [p, q].Sublist avgs := (h2 ▸ h1).trans (List.filter_sublist _)
  simpa using h3.map Prod.fst

/-! ### Rendering lemmas -/

theorem digitChar_isDigit {d : ℕ} (hd : d < 10) :
    (digitChar d).isDigit = true := by
  interval_cases d <;> decide

theorem natDigitsAux_digits (fuel n : ℕ) :
    ∀ c ∈ natDigitsAux fuel n, c.isDigit = true := by
  induction fuel generalizing n with
  | zero => intro c hc; cases hc
  | succ fuel ih =>
    intro c hc
    rw [natDigitsAux] at hc
    by_cases h : n < 10
    · rw [if_pos h] at hc
      rw [List.mem_singleton.mp hc]
      exact digitChar_isDigit h
    · rw [if_neg h] at hc
      rcases List.mem_append.mp hc with hc | hc
      · exact ih _ c hc
      · rw [List.mem_singleton.mp hc]
        exact digitChar_isDigit (Nat.mod_lt _ (by omega))

theorem formatFloat_twoDecimals (q : ℚ) :
    ∃ pre a b, (formatFloat q).data = pre ++ ['.', a, b] ∧
      a.isDigit = true ∧ b.isDigit = true ∧ '.' ∉ pre := by
  refine ⟨(if roundHalfEven (q * 100) < 0 then ['-'] else []) ++
      natDigits ((roundHalfEven (q * 100)).natAbs / 100),
    digitChar ((roundHalfEven (q * 100)).natAbs % 100 / 10),
    digitChar ((roundHalfEven (q * 100)).natAbs % 100 % 10), ?_, ?_, ?_, ?_⟩
  · rfl
  · refine digitChar_isDigit ?_
    have h100 : (roundHalfEven (q * 100)).natAbs % 100 < 100 :=
      Nat.mod_lt _ (by norm_num)
    omega
  · exact digitChar_isDigit (Nat.mod_lt _ (by norm_num))
  · intro hdot
    rcases List.mem_append.mp hdot with h | h
    · by_cases hn : roundHalfEven (q * 100) < 0
      · rw [if_pos hn] at h
        have : ('.' : Char) = '-' := List.mem_singleton.mp h
        cases this
      · rw [if_neg hn] at h
        cases h
    · have hd := natDigitsAux_digits _ _ '.' h
      have : ('.' : Char).isDigit = false := by decide
      rw [this] at hd
      cases hd

section

attribute [local semireducible] Rat.add Rat.mul Rat.sub Rat.inv Rat.ofScientific

/-- Claim C1, amended: on a dataset where `generate` succeeds, the report
has exactly one pair per distinct `country` cell value occurring in the
rows (such a value can be the null cell when a short record left the
`country` column unbound, not only a string) and no other pairs, and each
pair's average is the sum of that country's parsed `gdp` values divided
by their count. -/
theorem generate_report_pairs (data : List Row) (res : List (Value × ℚ))
    (h : generate data = .ok res) :
    (res.map Prod.fst).Nodup ∧
    (∀ c : Value, c ∈ res.map Prod.fst ↔ c ∈ data.map rowCountry) ∧
    (∀ p ∈ res,
      p.2 = (countryGdps data p.1).sum / ((countryGdps data p.1).length : ℚ)) := by
  obtain ⟨groups, hb, hres⟩ := generate_ok_elim h
  have hkeys : groupKeys groups = newCountries [] data := by
    have hk := buildGroups_ok_keys hb
    simpa [groupKeys] using hk
  have hnd : (groupKeys groups).Nodup := by
    rw [hkeys]; exact newCountries_nodup data []
  have hvals : ∀ c, groupVals groups c = countryGdps data c := by
    intro c
    have hv := buildGroups_ok_vals hb c
    simpa [groupVals] using hv
  have hfst : (groups.map
      (fun p => (p.1, p.2.sum / (p.2.length : ℚ)))).map Prod.fst =
      groupKeys groups := by
    rw [List.map_map]; rfl
  have hperm : res.Perm (groups.map (fun p => (p.1, p.2.sum / (p.2.length : ℚ)))) :=
    hres ▸ sortDesc_perm _
  have hpf : (res.map Prod.fst).Perm (groupKeys groups) :=
    hfst ▸ hperm.map Prod.fst
  refine ⟨?_, ?_, ?_⟩
  · exact hpf.nodup_iff.mpr hnd
  · intro c
    rw [hpf.mem_iff, hkeys, mem_newCountries]
    simp [List.mem_map]
  · intro p hp
    have hpa : p ∈ groups.map (fun p => (p.1, p.2.sum / (p.2.length : ℚ))) :=
      hperm.subset hp
    obtain ⟨q, hq, hpq⟩ := List.mem_map.mp hpa
    subst hpq
    have hgv : groupVals groups q.1 = q.2 := by
      have : (q.1, q.2) ∈ groups := by simpa using hq
      exact mem_groupVals this hnd
    have hcg : q.2 = countryGdps data q.1 := by rw [← hvals q.1, hgv]
    simp only []
    rw [← hcg]

/-- Witness for `generate_report_pairs` on a concrete dataset. -/
theorem generate_report_pairs_witness :
    generate exDataUSA = .ok [(Value.str "USA", (4 : ℚ))] ∧
    (([(Value.str "USA", (4 : ℚ))] : List (Value × ℚ)).map Prod.fst).Nodup :=
  ⟨by decide, (generate_report_pairs exDataUSA [(Value.str "USA", (4 : ℚ))]
    (by decide)).1⟩

/-- Claim C1, counterexample to the literal statement: on this dataset
`generate` succeeds, no row's `country` cell is a string (the only row's
cell is the null padding of a short record), yet the report is the
non-empty `[(null, 5)]` — so the report is not one pair per distinct
country *string* occurring in the dataset. -/
theorem generate_report_pairs_cex :
    generate exDataNullCountry = .ok [(Value.null, (5 : ℚ))] ∧
    exDataNullCountry.map rowCountry = [Value.null] ∧
    ([(Value.null, (5 : ℚ))] : List (Value × ℚ)) ≠ [] := by
  refine ⟨by decide, by decide, by decide⟩

/-- Claim C2: on a dataset where `generate` succeeds, the report is
sorted by average descending, and stably so: two report entries with
equal averages are ordered by the first appearance of their countries in
the dataset (the dataset index of the first row carrying the country). -/
theorem generate_sorted_stable (data : List Row) (res : List (Value × ℚ))
    (h : generate data = .ok res) :
    res.Pairwise (fun p q => q.2 ≤ p.2) ∧
    (∀ (i j : ℕ) (hi : i < res.length) (hj : j < res.length), i < j →
      (res.get ⟨i, hi⟩).2 = (res.get ⟨j, hj⟩).2 →
      data.findIdx (fun r => decide (rowCountry r = (res.get ⟨i, hi⟩).1)) <
        data.findIdx (fun r => decide (rowCountry r = (res.get ⟨j, hj⟩).1))) := by
  obtain ⟨groups, hb, hres⟩ := generate_ok_elim h
  constructor
  · rw [hres]; exact sortDesc_pairwise _
  · intro i j hi hj hij heq
    have hsub : [res.get ⟨i, hi⟩, res.get ⟨j, hj⟩].Sublist res :=
      get_pair_sublist res i j hi hj hij
    have h4 : [(res.get ⟨i, hi⟩).1, (res.get ⟨j, hj⟩).1].Sublist
        ((groups.map (fun p => (p.1, p.2.sum / (p.2.length : ℚ)))).map Prod.fst) :=
      stable_pairs_sublist hres hsub heq
    have hfst : (groups.map
        (fun p => (p.1, p.2.sum / (p.2.length : ℚ)))).map Prod.fst =
        newCountries [] data := by
      rw [List.map_map]
      have hk := buildGroups_ok_keys hb
      have he : groups.map (Prod.fst ∘ fun p : Value × List ℚ =>
          (p.1, p.2.sum / (p.2.length : ℚ))) = groupKeys groups := rfl
      rw [he]
      simpa [groupKeys] using hk
    rw [hfst] at h4
    have hnd : (newCountries [] data).Nodup := newCountries_nodup data []
    have hne : (res.get ⟨i, hi⟩).1 ≠ (res.get ⟨j, hj⟩).1 := by
      have hx : [(res.get ⟨i, hi⟩).1, (res.get ⟨j, hj⟩).1].Nodup :=
        List.Nodup.sublist h4 hnd
      simpa using (List.nodup_cons.mp hx).1
    exact newCountries_findIdx_lt data [] _ _ hne h4

/-- Witness for `generate_sorted_stable`: with averages A = 2, B = 2,
C = 1, the tied countries A and B come out in first-appearance order. -/
theorem generate_sorted_stable_witness :
    generate exDataTie = .ok exResTie ∧
    exDataTie.findIdx (fun r => decide (rowCountry r = (exResTie.get ⟨0, by decide⟩).1)) <
      exDataTie.findIdx (fun r => decide (rowCountry r = (exResTie.get ⟨1, by decide⟩).1)) :=
  ⟨by decide, (generate_sorted_stable exDataTie exResTie (by decide)).2 0 1
    (by decide) (by decide) (by decide) (by decide)⟩

/-- Claim C3, amended: `load` fails with the headers-missing error exactly
when the file has no records at all or its first record has zero fields.
A header-less file whose first line is a non-empty data row instead has
that line consumed as the header row, so it fails with `EmptyDataset`
when no data rows remain (see `read_csv_file_noHeaders_cex`). -/
theorem read_csv_file_noHeaders_iff (path : String) (fs : FileSystem)
    (records : List (List String)) (hfs : fs path = some records) :
    read_csv_file path fs = .error (.noHeaders path) ↔
      (records = [] ∨ records.head? = some []) := by
  cases records with
  | nil => simp [read_csv_file, hfs]
  | cons fns rest =>
    by_cases hf : fns.isEmpty
    · have hfe : fns = [] := by
        cases fns
        · rfl
        · cases hf
      simp [read_csv_file, hfs, hf, hfe]
    · have hfne : ¬(fns = []) := by
        intro hh; subst hh; cases hf rfl
      by_cases hk : (keptRows fns rest).isEmpty
      · simp [read_csv_file, hfs, hf, hk, hfne]
      · simp [read_csv_file, hfs, hf, hk, hfne]

/-- Witness for `read_csv_file_noHeaders_iff`: an entirely empty file
fails with the headers-missing error. -/
theorem read_csv_file_noHeaders_iff_witness :
    read_csv_file "empty.csv" exFsEmptyFile = .error (.noHeaders "empty.csv") :=
  (read_csv_file_noHeaders_iff "empty.csv" exFsEmptyFile [] (by decide)).mpr
    (Or.inl rfl)

/-- Claim C3, counterexample: a header-less file whose only line is the
data row `USA,123` does not fail with the headers-missing error — the
data row is consumed as the header and the load fails with
`EmptyDataset`. -/
theorem read_csv_file_noHeaders_cex :
    read_csv_file "data.csv" exFsDataRowOnly = .error (.emptyDataset "data.csv") ∧
    LoadError.emptyDataset "data.csv" ≠ LoadError.noHeaders "data.csv" :=
  ⟨by decide, by decide⟩

/-- Claim C4: `loadAll` attempts every path without short-circuiting; if
at least one path fails, it fails with the newline-joined list of one
message per failing path in input order, wording file-not-found failures
(`File not found: p`) differently from other load failures
(`Error reading p: msg`); if every path succeeds it returns the
concatenation of the per-file rows in file order. -/
theorem read_csv_files_spec (paths : List String) (fs : FileSystem) :
    ((∀ p ∈ paths, fileErrMsg fs p = none) →
      read_csv_files paths fs = .ok ((paths.map (fileRows fs)).flatten)) ∧
    ((∃ p ∈ paths, fileErrMsg fs p ≠ none) →
      read_csv_files paths fs =
        .error (String.intercalate "\n" (paths.filterMap (fileErrMsg fs)))) ∧
    (∀ p, fs p = none → fileErrMsg fs p = some ("File not found: " ++ p)) ∧
    (∀ p e, read_csv_file p fs = .error e → fs p ≠ none →
      fileErrMsg fs p =
        some ("Error reading " ++ p ++ ": " ++ LoadError.message e)) := by
  have hfold := read_csv_files_foldl paths fs [] []
  refine ⟨?_, ?_, ?_, ?_⟩
  · intro hall
    have hnil : paths.filterMap (fileErrMsg fs) = [] := by
      rw [List.filterMap_eq_nil_iff]
      exact hall
    unfold read_csv_files
    rw [hfold, hnil]
    simp
  · rintro ⟨p, hp, hne⟩
    have hmem : ∃ m, m ∈ paths.filterMap (fileErrMsg fs) := by
      obtain ⟨m, hm⟩ := Option.ne_none_iff_exists.mp hne
      exact ⟨m, List.mem_filterMap.mpr ⟨p, hp, hm.symm⟩⟩
    obtain ⟨m, hm⟩ := hmem
    have hnonnil : (paths.filterMap (fileErrMsg fs)).isEmpty = false := by
      cases he : paths.filterMap (fileErrMsg fs)
      · rw [he] at hm; cases hm
      · rfl
    unfold read_csv_files
    rw [hfold]
    simp [hnonnil]
  · intro p hnone
    simp [fileErrMsg, read_csv_file, hnone, loadErrorEntry]
  · intro p e hr hfs
    obtain ⟨records, hrec⟩ := Option.ne_none_iff_exists.mp hfs
    have hrec2 : fs p = some records := hrec.symm
    have hnf : e = .noHeaders p ∨ e = .emptyDataset p := by
      have hr2 := hr
      rw [read_csv_file, hrec2] at hr2
      cases records with
      | nil => exact Or.inl (Except.error.inj hr2).symm
      | cons fns rest =>
        change (if fns.isEmpty then Except.error (LoadError.noHeaders p)
          else if (keptRows fns rest).isEmpty then
            Except.error (LoadError.emptyDataset p)
          else Except.ok (keptRows fns rest)) = Except.error e at hr2
        by_cases hf : fns.isEmpty = true
        · rw [if_pos hf] at hr2
          exact Or.inl (Except.error.inj hr2).symm
        · rw [if_neg hf] at hr2
          by_cases hk : (keptRows fns rest).isEmpty = true
          · rw [if_pos hk] at hr2
            exact Or.inr (Except.error.inj hr2).symm
          · rw [if_neg hk] at hr2
            cases hr2
    have hentry : loadErrorEntry p e =
        "Error reading " ++ p ++ ": " ++ LoadError.message e := by
      rcases hnf with rfl | rfl <;> rfl
    simp [fileErrMsg, hr, hentry]

/-- Witness for `read_csv_files_spec`: one good file plus one missing
file produce a combined error holding the file-not-found message. -/
theorem read_csv_files_spec_witness :
    read_csv_files ["a.csv", "missing.csv"] exFsOneGood =
      .error ("File not found: missing.csv") := by
  have h := (read_csv_files_spec ["a.csv", "missing.csv"] exFsOneGood).2.1
    ⟨"missing.csv", by decide, by decide⟩
  rw [h]
  decide

/-- Claim C5, amended: `generate` fails with the SchemaError message
`CSV must contain 'country' and 'gdp' columns` on the first row lacking
the `country` or `gdp` key, provided every earlier row has both keys and
a parseable `gdp` value; no aggregate is returned.  (When an earlier row
already has an unparseable `gdp` cell, the InvalidValue failure fires
first — see `generate_schema_error_cex`.) -/
theorem generate_schema_error (pre post : List Row) (r : Row)
    (hpre : ∀ q ∈ pre, rowOk q = true)
    (hr : (hasKey r "country" && hasKey r "gdp") = false) :
    generate (pre ++ r :: post) = .error schemaMsg := by
  obtain ⟨acc2, hacc⟩ := buildGroups_append pre (r :: post) [] hpre
  unfold generate
  rw [hacc]
  simp [buildGroups, hr]

/-- Witness for `generate_schema_error`: a valid row followed by a row
with no keys at all. -/
theorem generate_schema_error_witness :
    generate [exRow "A" "1", ([] : Row)] = .error schemaMsg :=
  generate_schema_error [exRow "A" "1"] [] ([] : Row)
    (by decide) (by decide)

/-- Claim C5, counterexample to the literal statement: this dataset
contains a row lacking both keys, yet `generate` fails with the
InvalidValue message (the earlier row's `gdp` cell `x` is rejected
first), not with the SchemaError message. -/
theorem generate_schema_error_cex :
    ([] : Row) ∈ exDataBadThenMissing ∧
    hasKey ([] : Row) "country" = false ∧
    generate exDataBadThenMissing = .error ("Invalid GDP value: x") ∧
    "Invalid GDP value: x" ≠ schemaMsg :=
  ⟨by decide, by decide, by decide, by decide⟩

/-- Claim C6: on a dataset whose rows all have the `country` and `gdp`
keys, if some row's `gdp` cell does not parse as a decimal number then
`generate` fails with an InvalidValue error whose message embeds that
offending raw cell text. -/
theorem generate_invalid_value (data : List Row)
    (hkeys : ∀ r ∈ data, (hasKey r "country" && hasKey r "gdp") = true)
    (hbad : ∃ r ∈ data, parseGDP (rowGdp r) = none) :
    ∃ r ∈ data, parseGDP (rowGdp r) = none ∧
      generate data = .error ("Invalid GDP value: " ++ cellStr (rowGdp r)) := by
  obtain ⟨r, hr, hp, he⟩ := buildGroups_invalid data [] hkeys hbad
  refine ⟨r, hr, hp, ?_⟩
  unfold generate
  rw [he]
  rfl

/-- Witness for `generate_invalid_value`: a `gdp` cell of
`not_a_number` yields the error naming that literal string. -/
theorem generate_invalid_value_witness :
    generate exDataNotANumber = .error ("Invalid GDP value: not_a_number") := by
  obtain ⟨r, hr, hp, he⟩ := generate_invalid_value exDataNotANumber (by decide)
    ⟨exRow "USA" "not_a_number", by decide, by decide⟩
  have hrw : r = exRow "USA" "not_a_number" := by
    rcases List.mem_cons.mp hr with h | h
    · exact h
    · cases h
  subst hrw
  rw [he]
  decide

/-- Claim C7: a data row (the dictionary built from a non-blank record)
is skipped by `load` exactly when every one of its cell values is the
empty string, and `load` fails with `EmptyDataset` exactly when zero
rows remain after the skipping. -/
theorem read_csv_file_skip_blank (path : String) (fs : FileSystem)
    (fns : List String) (rawRows : List (List String))
    (hfs : fs path = some (fns :: rawRows)) (hfns : fns ≠ []) :
    (∀ rec ∈ rawRows, rec ≠ [] →
      (makeRow fns rec ∈ keptRows fns rawRows ↔
        ¬∀ v ∈ (makeRow fns rec).map Prod.snd, v = Value.str "")) ∧
    (keptRows fns rawRows ≠ [] →
      read_csv_file path fs = .ok (keptRows fns rawRows)) ∧
    (keptRows fns rawRows = [] →
      read_csv_file path fs = .error (.emptyDataset path)) := by
  have hf : fns.isEmpty = false := by
    cases fns
    · cases hfns rfl
    · rfl
  refine ⟨?_, ?_, ?_⟩
  · intro rec hrec hne
    unfold keptRows
    rw [List.mem_filter]
    constructor
    · rintro ⟨-, hbl⟩
      intro hall
      have : rowAllEmpty (makeRow fns rec) = true :=
        (rowAllEmpty_iff _).mpr hall
      rw [this] at hbl
      cases hbl
    · intro hnall
      have hrecf : rec ∈ rawRows.filter (fun x => !x.isEmpty) := by
        rw [List.mem_filter]
        refine ⟨hrec, ?_⟩
        cases rec
        · cases hne rfl
        · rfl
      refine ⟨List.mem_map.mpr ⟨rec, hrecf, rfl⟩, ?_⟩
      cases hbe : rowAllEmpty (makeRow fns rec)
      · rfl
      · exact absurd ((rowAllEmpty_iff _).mp hbe) hnall
  · intro hk
    have hke : (keptRows fns rawRows).isEmpty = false := by
      cases hkr : keptRows fns rawRows
      · cases hk hkr
      · rfl
    unfold read_csv_file
    rw [hfs]
    simp [hf, hke]
  · intro hk
    unfold read_csv_file
    rw [hfs]
    simp [hf, hk]

/-- Witness for `read_csv_file_skip_blank`: the all-empty-cells row is
dropped and the real data row is kept. -/
theorem read_csv_file_skip_blank_witness :
    read_csv_file "d.csv" exFsBlankish =
      .ok (keptRows ["country", "gdp"] [["", ""], ["USA", "5"]]) :=
  (read_csv_file_skip_blank "d.csv" exFsBlankish ["country", "gdp"]
    [["", ""], ["USA", "5"]] (by decide) (by decide)).2.1 (by decide)

/-- Claim C8: an invalid `--report` value is rejected by argument parsing
itself — for every file system the exit code is 2, so no file is read —
with the invalid-choice message listing the valid name `average-gdp`; a
handled application failure (a `ValueError` reaching the handler) exits
with code 1; the `KeyboardInterrupt` handler clause exits with code 130;
a completed run exits with code 0. -/
theorem cli_exit_codes :
    (∀ (f v : String) (fs : FileSystem), isFlag f = false →
      registeredReports.contains v = false →
      parse_arguments ["--files", f, "--report", v] = .error (invalidChoiceMsg v) ∧
      main ["--files", f, "--report", v] fs = 2) ∧
    (∀ (argv : List String) (fs : FileSystem) (m : String),
      body argv fs = .raised (.valueErrorExc m) → main argv fs = 1) ∧
    handlerExitCode .keyboardInterrupt = 130 ∧
    (∀ (argv : List String) (fs : FileSystem) (t : Table),
      body argv fs = .completed t → main argv fs = 0) := by
  refine ⟨?_, ?_, rfl, ?_⟩
  · intro f v fs hff hv
    have hf1 : ¬(f = "--files") := by
      intro h; subst h
      have hh : isFlag "--files" = true := by decide
      rw [hh] at hff; cases hff
    have hf2 : ¬(f = "--report") := by
      intro h; subst h
      have hh : isFlag "--report" = true := by decide
      rw [hh] at hff; cases hff
    have hv2 : v ∉ registeredReports := by
      intro hm
      have hveq : v = "average-gdp" := List.mem_singleton.mp hm
      subst hveq
      have hc : registeredReports.contains "average-gdp" = true := by decide
      rw [hc] at hv
      cases hv
    have hparse : parse_arguments ["--files", f, "--report", v] =
        .error (invalidChoiceMsg v) := by
      simp [parse_arguments, parseArgsAux, hf1, hf2, hff, hv, hv2]
    refine ⟨hparse, ?_⟩
    unfold main body
    rw [hparse]
  · intro argv fs m hbody
    unfold main
    rw [hbody]
    rfl
  · intro argv fs t hbody
    unfold main
    rw [hbody]

/-- Witness for `cli_exit_codes`: a bogus report name exits 2 even with
no file system behind it, and a good run exits 0. -/
theorem cli_exit_codes_witness :
    main ["--files", "data.csv", "--report", "bogus"] exFsNone = 2 ∧
    main ["--files", "d.csv", "--report", "average-gdp"] exFsGoodRun = 0 :=
  ⟨(cli_exit_codes.1 "data.csv" "bogus" exFsNone (by decide) (by decide)).2,
   cli_exit_codes.2.2.2 ["--files", "d.csv", "--report", "average-gdp"]
     exFsGoodRun (formatReport [(Value.str "USA", (5 : ℚ))]) (by decide)⟩

/-- Claim C9: `format` is total on the report data `generate` produces;
the table header is `["Country", "Average GDP (billions USD)"]`, every
table row has two cells, and every average cell ends in a decimal point
followed by exactly two digits (and contains no other decimal point). -/
theorem format_two_decimals (data : List Row) (res : List (Value × ℚ))
    (h : generate data = .ok res) :
    (formatReport res).headers = ["Country", "Average GDP (billions USD)"] ∧
    ∀ row ∈ (formatReport res).rows, row.length = 2 ∧
      ∃ s, row.get? 1 = some s ∧
        ∃ pre a b, s.data = pre ++ ['.', a, b] ∧
          a.isDigit = true ∧ b.isDigit = true ∧ '.' ∉ pre := by
  refine ⟨rfl, ?_⟩
  intro row hrow
  obtain ⟨p, hp, hrw⟩ := List.mem_map.mp hrow
  subst hrw
  exact ⟨rfl, formatFloat p.2, rfl, formatFloat_twoDecimals p.2⟩

/-- Witness for `format_two_decimals` on a one-country report. -/
theorem format_two_decimals_witness :
    generate exDataFmt = .ok [(Value.str "A", (3 : ℚ))] ∧
    (formatReport [(Value.str "A", (3 : ℚ))]).headers =
      ["Country", "Average GDP (billions USD)"] :=
  ⟨by decide,
   (format_two_decimals exDataFmt [(Value.str "A", (3 : ℚ))] (by decide)).1⟩

/-- Claim C10, amended: an input row that supplies at least one cell but
fewer cells than there are header columns has every missing column bound
to the null value, is never blank under the skip rule, and a dataset row
whose `gdp` cell is null makes `generate` fail with the message
`Invalid GDP value: None` (once the earlier rows are valid).  A record
with zero cells (an empty line) is instead dropped by the reader before
any column binding — see `short_row_null_padding_cex`. -/
theorem short_row_null_padding (fns cells : List String)
    (hne : cells ≠ []) (hlt : cells.length < fns.length) :
    (∀ k ∈ fns.drop cells.length,
      rowGet (makeRow fns cells) k = some Value.null) ∧
    rowAllEmpty (makeRow fns cells) = false ∧
    (∀ (pre post : List Row) (r : Row), (∀ q ∈ pre, rowOk q = true) →
      (hasKey r "country" && hasKey r "gdp") = true → rowGdp r = Value.null →
      generate (pre ++ r :: post) = .error ("Invalid GDP value: None")) := by
  have hmk : makeRow fns cells =
      (fns.drop cells.length).foldl (fun d k => dictInsert d (some k) Value.null)
        ((fns.zip cells).foldl
          (fun d kv => dictInsert d (some kv.1) (.str kv.2)) []) := by
    unfold makeRow
    rw [if_pos hlt]
  refine ⟨?_, ?_, ?_⟩
  · intro k hk
    rw [hmk]
    exact rowGet_padNull_of_mem _ _ _ hk
  · have hdrop : fns.drop cells.length ≠ [] := by
      intro hdrop
      have := List.drop_eq_nil_iff.mp hdrop
      omega
    obtain ⟨k, hk⟩ := List.exists_mem_of_ne_nil _ hdrop
    have hget : rowGet (makeRow fns cells) k = some Value.null := by
      rw [hmk]
      exact rowGet_padNull_of_mem _ _ _ hk
    have hmem : (some k, Value.null) ∈ makeRow fns cells := rowGet_mem hget
    cases hv : rowAllEmpty (makeRow fns cells)
    · rfl
    · have := (rowAllEmpty_iff _).mp hv Value.null
        (List.mem_map.mpr ⟨(some k, Value.null), hmem, rfl⟩)
      cases this
  · intro pre post r hpre hkeys hnull
    obtain ⟨acc2, hacc⟩ := buildGroups_append pre (r :: post) [] hpre
    unfold generate
    rw [hacc]
    have hp : parseGDP (rowGdp r) = none := by rw [hnull]; rfl
    simp [buildGroups, hkeys, hp, parseGDP, invalidMsg, hnull, cellStr]

/-- Witness for `short_row_null_padding`: under headers `country,gdp`,
the one-cell record `USA` binds `gdp` to null, and that row makes
`generate` fail with `Invalid GDP value: None`. -/
theorem short_row_null_padding_witness :
    rowGet (makeRow ["country", "gdp"] ["USA"]) "gdp" = some Value.null ∧
    generate [makeRow ["country", "gdp"] ["USA"]] =
      .error ("Invalid GDP value: None") :=
  ⟨(short_row_null_padding ["country", "gdp"] ["USA"] (by decide)
      (by decide)).1 "gdp" (by decide),
   (short_row_null_padding ["country", "gdp"] ["USA"] (by decide)
      (by decide)).2.2 [] [] (makeRow ["country", "gdp"] ["USA"])
      (fun q hq => absurd hq (List.not_mem_nil q)) (by decide) (by decide)⟩

/-- Claim C10, counterexample to the literal statement: an empty record
(a blank line) supplies zero cells — fewer than the two header columns —
yet it is dropped by the reader rather than kept with null bindings, and
the pipeline succeeds instead of failing on a null `gdp`. -/
theorem short_row_null_padding_cex :
    read_csv_file "f.csv" exFsBlankLine =
      .ok [[(some "country", Value.str "USA"), (some "gdp", Value.str "5")]] ∧
    generate [[(some "country", Value.str "USA"), (some "gdp", Value.str "5")]] =
      .ok [(Value.str "USA", (5 : ℚ))] :=
  ⟨by decide, by decide⟩

end

end MacroAnalysis
